import Mathlib

/-!
Verification development for the custom-logger repository (`src/logger.py`).

The embedding below translates, from the Python source:

* `LogRow` — one row of the `logs` table, columns
  `(message, area_name, time, level, instance_id)`.  Timestamps are modelled
  as rationals (seconds); durations are divided by 60 exactly as the code
  divides `total_seconds()` by 60.  The final `f"{x:.2f} minutes"` string
  formatting is presentation only and is abstracted: all claims compare the
  numeric values "up to rounding", so the model keeps the exact rationals.
* `_generate_runtime_report` (logger.py lines 319–416) — the single-pass
  runtime segmentation engine, as a fold `segStep` over the ordered rows,
  followed by the final close `segFinal` and the flattening loop.
  The Python report dict holds the key `"Total runtime"` alongside the area
  keys; the model keeps the overall total in a separate field (on an area
  literally named `"Total runtime"` the Python code raises `TypeError`
  instead of producing a report, so theorems that quantify over streams
  exclude that area name by hypothesis).
* `_generate_error_report` (lines 419–447) — the per-area severity tally.
* `get_etl_id` (lines 182–199) — the run-id assignment.
* `generate_reports` / `finalize_logs` (lines 287–317) — the finalizer's
  exception flow, its (absent) effect on the store, and the report-history
  block.
-/

/-- One row of the `logs` table: columns
`(message, area_name, time, level, instance_id)` of `LogEntry`
(logger.py lines 38–45).  `time` is in seconds as an exact rational. -/
structure LogRow where
  message : String
  area_name : String
  time : ℚ
  level : String
  instance_id : ℤ
deriving DecidableEq, Repr

/-- `(t2 - t1).total_seconds() / 60`: a duration in minutes, exact. -/
def minutes (t1 t2 : ℚ) : ℚ := (t2 - t1) / 60

/-- The per-area record the Python code keeps in the report dict:
`{'Total_runtime': <number>, 'Entries': {...}}` (logger.py line 355). -/
structure AreaData where
  total : ℚ
  entries : List (String × ℚ)
deriving DecidableEq, Repr

/-- The report under construction: an association list mirroring the Python
dict `report` restricted to its area keys (keys in insertion order, as
Python dicts preserve insertion order). -/
abbrev Report := List (String × AreaData)

/-- Association-list lookup, mirroring Python dict access `d[a]`
(first matching key; keys are unique by construction). -/
def alookup {β : Type} (a : String) : List (String × β) → Option β
  | [] => none
  | p :: r => if p.1 = a then some p.2 else alookup a r

/-- The keys of an association list, in order. -/
def akeys {β : Type} (r : List (String × β)) : List String := r.map Prod.fst

/-- `if current_area not in report: report[current_area] = {'Total_runtime': 0, 'Entries': {}}`
(logger.py lines 354–355 and 370–371).  A Python dict appends new keys at
the end. -/
def initArea (a : String) (r : Report) : Report :=
  if (alookup a r).isSome then r else r ++ [(a, ⟨0, []⟩)]

/-- `report[current_area]['Total_runtime'] += d` (logger.py lines 356, 393). -/
def addTotal (a : String) (d : ℚ) (r : Report) : Report :=
  r.map (fun p => if p.1 = a then (p.1, ⟨p.2.total + d, p.2.entries⟩) else p)

/-- Python dict assignment `d[k] = v`: update in place if the key exists,
append otherwise. -/
def upsert (k : String) (v : ℚ) : List (String × ℚ) → List (String × ℚ)
  | [] => [(k, v)]
  | e :: es => if e.1 = k then (k, v) :: es else e :: upsert k v es

/-- `report[a]['Entries'][k] = v` (logger.py lines 362, 379, 383, 399). -/
def setEntry (a k : String) (v : ℚ) (r : Report) : Report :=
  r.map (fun p => if p.1 = a then (p.1, ⟨p.2.total, upsert k v p.2.entries⟩) else p)

/-- The loop state of `_generate_runtime_report` (logger.py lines 339–343):
`report`, `current_area`, `area_start_time`, `sub_entry_start_time`,
`sub_entry_message`. -/
structure SegState where
  rep : Report
  currentArea : Option String
  areaStart : ℚ
  subStart : Option ℚ
  subMsg : String
deriving Repr

/-- The initial loop state: `current_area = None`, `area_start_time = None`,
`sub_entry_start_time = None`, `sub_entry_message = None`
(logger.py lines 340–343; the unused start times are modelled as 0). -/
def initState : SegState := ⟨[], none, 0, none, ""⟩

/-- One iteration of the loop `for i, log in enumerate(logs)`
(logger.py lines 345–387): area-transition closing, area initialisation,
then STATUS sub-entry handling, in the source's order. -/
def segStep (s : SegState) (e : LogRow) : SegState :=
  -- `if area != current_area:` (line 349)
  let s1 : SegState :=
    if some e.area_name = s.currentArea then s
    else
      let rep1 : Report :=
        match s.currentArea with
        | none => s.rep
        | some ca =>
          -- close the previous area (lines 351–362)
          let r := initArea ca s.rep
          let r := addTotal ca (minutes s.areaStart e.time) r
          match s.subStart with
          | none => r
          | some ss => setEntry ca s.subMsg (minutes ss e.time) r
      { rep := rep1, currentArea := some e.area_name, areaStart := e.time,
        subStart := none, subMsg := s.subMsg }
  -- `if current_area not in report:` (lines 370–371)
  let s2 : SegState := { s1 with rep := initArea e.area_name s1.rep }
  -- `if level == 'STATUS':` (lines 374–387)
  if e.level = "STATUS" then
    let rep3 : Report :=
      match s2.subStart with
      | some ss => setEntry e.area_name s2.subMsg (minutes ss e.time) s2.rep
      | none => setEntry e.area_name "Startup" (minutes s2.areaStart e.time) s2.rep
    { s2 with rep := rep3, subStart := some e.time, subMsg := e.message }
  else s2

/-- Closing of the last area and sub-entry after the loop
(logger.py lines 389–399), with `last` the timestamp of the last row. -/
def segFinal (s : SegState) (last : ℚ) : Report :=
  match s.currentArea with
  | none => s.rep
  | some ca =>
    let r := addTotal ca (minutes s.areaStart last) s.rep
    match s.subStart with
    | none => r
    | some ss => setEntry ca s.subMsg (minutes ss last) r

/-- `logs[-1][2]`: the timestamp of the last row of `e :: rest`. -/
def lastTimeGo (e : LogRow) : List LogRow → ℚ
  | [] => e.time
  | x :: xs => lastTimeGo x xs

/-- A reported area after the flattening loop (logger.py lines 407–411):
either the flat duration value (area with no entries) or the nested
`{'Total_runtime': ..., 'Entries': {...}}` structure. -/
inductive AreaVal where
  | flat (total : ℚ)
  | nested (total : ℚ) (entries : List (String × ℚ))
deriving DecidableEq, Repr

/-- The emitted runtime report: the `"Total runtime"` value and the area
entries in dict order. -/
structure RuntimeReport where
  total : ℚ
  areas : List (String × AreaVal)
deriving DecidableEq, Repr

/-- `if not report[area]['Entries']: report[area] = <flat>` (lines 407–409). -/
def flattenArea (d : AreaData) : AreaVal :=
  if d.entries = [] then .flat d.total else .nested d.total d.entries

/-- `_generate_runtime_report` on the ordered rows of the current run
(logger.py lines 319–416); `none` models the early `return` when
`len(logs) == 0` (lines 330–331), in which case `report_runtime.json` is
not written. -/
def _generate_runtime_report (logs : List LogRow) : Option RuntimeReport :=
  match logs with
  | [] => none
  | first :: rest =>
    let lt := lastTimeGo first rest
    let overall := minutes first.time lt
    let s := (first :: rest).foldl segStep initState
    let rep := segFinal s lt
    some ⟨overall, rep.map (fun p => (p.1, flattenArea p.2))⟩

/-- The sum of the `Total_runtime` numbers in the report dict. -/
def sumTotals (r : Report) : ℚ := (r.map (fun p => p.2.total)).sum

/-- The `Total_runtime` number a flattened area value carries. -/
def areaTotal : AreaVal → ℚ
  | .flat t => t
  | .nested t _ => t

/-- The sum of the per-area `Total_runtime` values of an emitted report. -/
def sumAreaTotals (rr : RuntimeReport) : ℚ :=
  (rr.areas.map (fun p => areaTotal p.2)).sum

/-- The `Total_runtime` number recorded for area `a` (0 when absent). -/
def totalOf (a : String) (r : Report) : ℚ :=
  match alookup a r with
  | some d => d.total
  | none => 0

/-- The `Total_runtime` an emitted report gives area `a` (0 when absent). -/
def areaTotalOf (rr : RuntimeReport) (a : String) : ℚ :=
  match alookup a rr.areas with
  | some v => areaTotal v
  | none => 0

/-! ### Span decomposition of a stream (specification side)

For claims C1 and C10 we compare the engine's per-area totals with the
maximal contiguous spans of equal `area_name` in the stream: a span starts
at its first event's timestamp and closes at the first timestamp of the
next span (the last span closes at the last event's timestamp). -/

/-- Remaining spans given the open span `(a, start)` and the overall last
timestamp `last`. -/
def spansGo (a : String) (start last : ℚ) : List LogRow → List (String × ℚ × ℚ)
  | [] => [(a, start, last)]
  | e :: rest =>
    if e.area_name = a then spansGo a start last rest
    else (a, start, e.time) :: spansGo e.area_name e.time last rest

/-- The maximal contiguous area spans of a stream, as
`(area, startTime, closeTime)` triples. -/
def spans : List LogRow → List (String × ℚ × ℚ)
  | [] => []
  | first :: rest => spansGo first.area_name first.time (lastTimeGo first rest) rest

/-- The spans of a given area. -/
def spansOf (a : String) (sp : List (String × ℚ × ℚ)) : List (String × ℚ × ℚ) :=
  sp.filter (fun p => p.1 = a)

/-- The summed duration (in minutes) of the spans of area `a`. -/
def spanSum (a : String) (sp : List (String × ℚ × ℚ)) : ℚ :=
  ((spansOf a sp).map (fun p => minutes p.2.1 p.2.2)).sum

/-! ### Error aggregation engine (`_generate_error_report`, lines 419–447) -/

/-- `self.reported_levels` (logger.py line 265). -/
def reported_levels : List String := ["WARNING", "ERROR", "EXCEPTION", "CRITICAL"]

/-- `SELECT DISTINCT area_name FROM logs WHERE instance_id = ...`
(line 422): the distinct area names in first-occurrence order. -/
def distinctAreas (logs : List LogRow) : List String :=
  logs.foldl (fun acc e => if e.area_name ∈ acc then acc else acc ++ [e.area_name]) []

/-- `error_counts[log[0]] += 1` (line 434) on the counts dict. -/
def incr (l : String) (cs : List (String × ℕ)) : List (String × ℕ) :=
  cs.map (fun p => if p.1 = l then (p.1, p.2 + 1) else p)

/-- The per-area severity tally (lines 426–434): the rows of the area whose
level is among `reported_levels` (the SQL `level IN (...)` filter), folded
into the zero-initialised counts dict `{level: 0 for level in reported_levels}`. -/
def errorCountsFor (a : String) (logs : List LogRow) : List (String × ℕ) :=
  let area_logs := logs.filter (fun e => decide (e.area_name = a ∧ e.level ∈ reported_levels))
  area_logs.foldl (fun cs e => incr e.level cs) (reported_levels.map (fun l => (l, 0)))

/-- An area's value in the error report: the `"No Errors"` sentinel or the
positive-count map `{level: {'Count': n}, ...}`. -/
inductive ErrVal where
  | noErrors
  | counts (cs : List (String × ℕ))
deriving DecidableEq, Repr

/-- The loop body of `_generate_error_report` for one area (lines 432–441):
the zero counts are dropped (line 436) and an empty result becomes
`"No Errors"` (lines 438–441). -/
def errorAreaVal (logs : List LogRow) (a : String) : ErrVal :=
  let filtered := (errorCountsFor a logs).filter (fun p => decide (0 < p.2))
  if filtered = [] then ErrVal.noErrors else ErrVal.counts filtered

/-- `_generate_error_report` on the current run's rows (lines 419–447):
one entry per distinct area of the run. -/
def _generate_error_report (logs : List LogRow) : List (String × ErrVal) :=
  (distinctAreas logs).map (fun a => (a, errorAreaVal logs a))

/-- `report_errors.json` is written unconditionally at the end of
`_generate_error_report` (lines 444–445); modelled as always-`some`.
At finalization the error generator runs only when the runtime generator
did not raise (lines 294–296), so this model — like
`_generate_runtime_report` above — is faithful only on streams with no
area literally named `"Total runtime"`, the one case in which the runtime
generator raises; theorems quantifying over streams carry that
exclusion as a hypothesis. -/
def _generate_error_report_doc (logs : List LogRow) : Option (List (String × ErrVal)) :=
  some (_generate_error_report logs)

/-! ### Store-level wrappers and run isolation -/

/-- Stable insertion of a row into a list sorted by non-decreasing `time`. -/
def insertByTime (e : LogRow) : List LogRow → List LogRow
  | [] => [e]
  | x :: xs => if e.time ≤ x.time then e :: x :: xs else x :: insertByTime e xs

/-- `ORDER BY time`: stable sort of the rows by timestamp. -/
def sortByTime : List LogRow → List LogRow
  | [] => []
  | x :: xs => insertByTime x (sortByTime xs)

/-- `SELECT ... FROM logs WHERE instance_id = id ORDER BY time` (line 328):
the current run's rows of the store, ordered by timestamp. -/
def queryRun (store : List LogRow) (id : ℤ) : List LogRow :=
  sortByTime (store.filter (fun e => e.instance_id = id))

/-- The runtime report the finalizer produces from a given store state. -/
def runtimeReportOfStore (store : List LogRow) (id : ℤ) : Option RuntimeReport :=
  _generate_runtime_report (queryRun store id)

/-- The error report the finalizer produces from a given store state (the
error queries filter on `instance_id` but have no `ORDER BY`, lines 422
and 427; row order is the store's order). -/
def errorReportOfStore (store : List LogRow) (id : ℤ) : List (String × ErrVal) :=
  _generate_error_report (store.filter (fun e => e.instance_id = id))

/-! ### `get_etl_id` (logger.py lines 182–199) -/

/-- Insertion into a list sorted in non-increasing order. -/
def insertDesc (x : ℤ) : List ℤ → List ℤ
  | [] => [x]
  | y :: ys => if y ≤ x then x :: y :: ys else y :: insertDesc x ys

/-- `ORDER BY instance_id DESC`: sort run ids in non-increasing order. -/
def sortDesc : List ℤ → List ℤ
  | [] => []
  | x :: xs => insertDesc x (sortDesc xs)

/-- `get_etl_id` (lines 182–199): `fetchone()` of the ids sorted
descending — `None` gives 1, a row gives `row[0] + 1` — and the
`except Exception: return 1` branch for an unreadable store, modelled by
running it on the outcome of the store read. -/
def get_etl_id (readResult : Except String (List LogRow)) : ℤ :=
  match readResult with
  | .error _ => 1
  | .ok rows =>
    match (sortDesc (rows.map LogRow.instance_id)).head? with
    | none => 1
    | some m => m + 1

/-! ### The finalizer (`finalize_logs` / `generate_reports`, lines 287–317) -/

/-- A Python exception, split by whether it is a `ValueError` (the only
class `generate_reports` catches, line 297). -/
inductive PyExc where
  | valueError (msg : String)
  | otherError (msg : String)
deriving DecidableEq, Repr

/-- The `try` body of `generate_reports` (lines 294–296): run
`_generate_runtime_report` then `_generate_error_report`, stopping at the
first exception.  The outcomes of the two calls are parameters, standing
for whatever the store reads and document writes inside them do. -/
def reportsTryBody (rt er : Except PyExc Unit) : Except PyExc Unit :=
  match rt with
  | .error e => .error e
  | .ok _ => er

/-- `generate_reports` (lines 292–317): the `try` body with
`except ValueError: pass` (lines 297–299), then the history block, which
returns at once because `self.report` is never assigned (line 304). -/
def generate_reports_exc (rt er : Except PyExc Unit) : Except PyExc Unit :=
  match reportsTryBody rt er with
  | .error (.valueError _) => .ok ()
  | .error e => .error e
  | .ok _ => .ok ()

/-- `finalize_logs` (lines 287–290): records `run_end` and calls
`generate_reports`; its exception outcome is that of `generate_reports`. -/
def finalize_logs_exc (rt er : Except PyExc Unit) : Except PyExc Unit :=
  generate_reports_exc rt er

/-- A SQL statement the finalizer could issue against the `logs` table.
`deleteRun` is the purge statement the spec describes; the code issues
only the three `SELECT`s. -/
inductive SqlStmt where
  | selectLogs (instanceId : ℤ)
  | selectDistinctAreas (instanceId : ℤ)
  | selectAreaLevels (area : String) (instanceId : ℤ)
  | deleteRun (instanceId : ℤ)
deriving DecidableEq, Repr

/-- The effect of one SQL statement on the store: `SELECT`s leave it
unchanged, `deleteRun` removes the run's rows. -/
def execEffect (store : List LogRow) : SqlStmt → List LogRow
  | .selectLogs _ => store
  | .selectDistinctAreas _ => store
  | .selectAreaLevels _ _ => store
  | .deleteRun id => store.filter (fun e => e.instance_id ≠ id)

/-- The statements `finalize_logs` issues, read off the source: the runtime
report's `SELECT` (line 328), the error report's `SELECT DISTINCT`
(line 422) and one per-area `SELECT` (line 427).  No `DELETE` appears
anywhere in `logger.py`. -/
def finalizeStmts (id : ℤ) (areas : List String) : List SqlStmt :=
  SqlStmt.selectLogs id :: SqlStmt.selectDistinctAreas id ::
    areas.map (fun a => SqlStmt.selectAreaLevels a id)

/-- The store state after the finalizer ran all its statements. -/
def finalize_store (store : List LogRow) (id : ℤ) : List LogRow :=
  (finalizeStmts id (distinctAreas (store.filter (fun e => e.instance_id = id)))).foldl
    execEffect store

/-! ### The report-history block (`generate_reports`, lines 303–317) -/

/-- What `generate_reports` writes into `report.json`: nothing, a bare
report object, or a list of reports. -/
inductive HistoryDoc where
  | single (r : RuntimeReport)
  | list (rs : List RuntimeReport)
deriving DecidableEq, Repr

/-- The value of `self.report` when the history block runs: the attribute
is never assigned anywhere in `logger.py` (`_generate_runtime_report`
returns its report but `generate_reports` discards the return value,
line 295), so `hasattr(self, 'report')` is false. -/
def selfReport : Option RuntimeReport := none

/-- The history block (lines 303–317).  If `self.report` is unset it
returns without touching `report.json` (lines 304–305).  Otherwise
`open('report.json', 'w')` truncates the file and `f.readlines()` raises
`io.UnsupportedOperation`, so the `except` branch writes the bare new
report, discarding the prior history (lines 307–317). -/
def history_write (selfRep : Option RuntimeReport) (prior : List RuntimeReport) :
    Option HistoryDoc :=
  match selfRep with
  | none => none
  | some r => some (.single r)

/-- The content `generate_reports` leaves in `report.json` after one
finalization with prior history `prior`: `none` means the file is not
written. -/
def generate_reports_history (prior : List RuntimeReport) : Option HistoryDoc :=
  history_write selfReport prior

/-! ## Helper lemmas on the report association list -/

theorem alookup_cons {β : Type} (a : String) (p : String × β) (r : List (String × β)) :
    alookup a (p :: r) = if p.1 = a then some p.2 else alookup a r := rfl

theorem akeys_cons {β : Type} (p : String × β) (r : List (String × β)) :
    akeys (p :: r) = p.1 :: akeys r := rfl

theorem mem_akeys_cons {β : Type} (a : String) (p : String × β) (r : List (String × β)) :
    a ∈ akeys (p :: r) ↔ a = p.1 ∨ a ∈ akeys r := by
  rw [akeys_cons]; exact List.mem_cons

theorem alookup_eq_none {β : Type} (a : String) (r : List (String × β)) :
    alookup a r = none ↔ a ∉ akeys r := by
  induction r with
  | nil => simp [alookup, akeys]
  | cons p rest ih =>
    rw [alookup_cons, mem_akeys_cons]
    by_cases h : p.1 = a
    · simp [h]
    · rw [if_neg h, ih]
      constructor
      · intro hn hm
        rcases hm with hm | hm
        · exact h hm.symm
        · exact hn hm
      · intro hn hm
        exact hn (Or.inr hm)

theorem alookup_isSome {β : Type} (a : String) (r : List (String × β)) :
    (alookup a r).isSome = true ↔ a ∈ akeys r := by
  constructor
  · intro h
    by_contra hm
    rw [(alookup_eq_none a r).mpr hm] at h
    simp at h
  · intro hm
    cases h : alookup a r with
    | some d => simp
    | none => exact absurd hm ((alookup_eq_none a r).mp h)

theorem akeys_append {β : Type} (r s : List (String × β)) :
    akeys (r ++ s) = akeys r ++ akeys s := by
  simp [akeys]

theorem addTotal_cons (a : String) (d : ℚ) (p : String × AreaData) (r : Report) :
    addTotal a d (p :: r) =
      (if p.1 = a then (p.1, ⟨p.2.total + d, p.2.entries⟩) else p) :: addTotal a d r := rfl

theorem setEntry_cons (a k : String) (v : ℚ) (p : String × AreaData) (r : Report) :
    setEntry a k v (p :: r) =
      (if p.1 = a then (p.1, ⟨p.2.total, upsert k v p.2.entries⟩) else p) :: setEntry a k v r := rfl

theorem akeys_addTotal (a : String) (d : ℚ) (r : Report) :
    akeys (addTotal a d r) = akeys r := by
  induction r with
  | nil => rfl
  | cons p rest ih =>
    rw [addTotal_cons, akeys_cons, akeys_cons, ih]
    by_cases h : p.1 = a
    · rw [if_pos h]
    · rw [if_neg h]

theorem akeys_setEntry (a k : String) (v : ℚ) (r : Report) :
    akeys (setEntry a k v r) = akeys r := by
  induction r with
  | nil => rfl
  | cons p rest ih =>
    rw [setEntry_cons, akeys_cons, akeys_cons, ih]
    by_cases h : p.1 = a
    · rw [if_pos h]
    · rw [if_neg h]

theorem akeys_initArea (a : String) (r : Report) :
    akeys (initArea a r) = akeys r ∨ akeys (initArea a r) = akeys r ++ [a] := by
  unfold initArea
  by_cases h : (alookup a r).isSome = true
  · left; rw [if_pos h]
  · right; rw [if_neg h, akeys_append]; rfl

theorem mem_akeys_initArea (a : String) (r : Report) :
    a ∈ akeys (initArea a r) := by
  unfold initArea
  by_cases h : (alookup a r).isSome = true
  · rw [if_pos h]; exact (alookup_isSome a r).mp h
  · rw [if_neg h, akeys_append]
    exact List.mem_append_right _ (by exact List.mem_singleton.mpr rfl)

theorem mem_akeys_initArea_of_mem (a b : String) (r : Report) (h : a ∈ akeys r) :
    a ∈ akeys (initArea b r) := by
  rcases akeys_initArea b r with hk | hk <;> rw [hk]
  · exact h
  · exact List.mem_append_left _ h

theorem nodup_akeys_initArea (a : String) (r : Report)
    (h : (akeys r).Nodup) : (akeys (initArea a r)).Nodup := by
  unfold initArea
  by_cases hs : (alookup a r).isSome = true
  · rw [if_pos hs]; exact h
  · have hnm : a ∉ akeys r := fun hm => hs ((alookup_isSome a r).mpr hm)
    rw [if_neg hs, akeys_append]
    rw [List.nodup_append]
    refine ⟨h, List.nodup_singleton a, ?_⟩
    intro x hx hx1
    have hxa : x = a := by simpa [akeys] using hx1
    exact hnm (hxa ▸ hx)

theorem addTotal_of_not_mem (a : String) (d : ℚ) (r : Report)
    (h : a ∉ akeys r) : addTotal a d r = r := by
  induction r with
  | nil => rfl
  | cons p rest ih =>
    rw [mem_akeys_cons] at h
    push_neg at h
    rw [addTotal_cons, if_neg (fun hh => h.1 hh.symm), ih h.2]

theorem sumTotals_cons (p : String × AreaData) (r : Report) :
    sumTotals (p :: r) = p.2.total + sumTotals r := by
  simp [sumTotals]

theorem sumTotals_append (r s : Report) :
    sumTotals (r ++ s) = sumTotals r + sumTotals s := by
  simp [sumTotals]

theorem sumTotals_initArea (a : String) (r : Report) :
    sumTotals (initArea a r) = sumTotals r := by
  unfold initArea
  by_cases h : (alookup a r).isSome = true
  · rw [if_pos h]
  · rw [if_neg h, sumTotals_append]
    simp [sumTotals]

theorem sumTotals_setEntry (a k : String) (v : ℚ) (r : Report) :
    sumTotals (setEntry a k v r) = sumTotals r := by
  induction r with
  | nil => rfl
  | cons p rest ih =>
    rw [setEntry_cons, sumTotals_cons, sumTotals_cons, ih]
    by_cases h : p.1 = a
    · rw [if_pos h]
    · rw [if_neg h]

theorem sumTotals_addTotal (a : String) (d : ℚ) (r : Report)
    (hnd : (akeys r).Nodup) (hm : a ∈ akeys r) :
    sumTotals (addTotal a d r) = sumTotals r + d := by
  induction r with
  | nil => simp [akeys] at hm
  | cons p rest ih =>
    rw [akeys_cons, List.nodup_cons] at hnd
    rw [mem_akeys_cons] at hm
    rw [addTotal_cons, sumTotals_cons, sumTotals_cons]
    by_cases h : p.1 = a
    · have hnm : a ∉ akeys rest := h ▸ hnd.1
      rw [if_pos h, addTotal_of_not_mem a d rest hnm]
      show p.2.total + d + sumTotals rest = _
      ring
    · have hm' : a ∈ akeys rest := by
        rcases hm with hm | hm
        · exact absurd hm.symm h
        · exact hm
      rw [if_neg h, ih hnd.2 hm']
      ring

theorem alookup_append {β : Type} (a : String) (r s : List (String × β)) :
    alookup a (r ++ s) =
      match alookup a r with
      | some d => some d
      | none => alookup a s := by
  induction r with
  | nil => rfl
  | cons p rest ih =>
    rw [List.cons_append, alookup_cons, alookup_cons]
    by_cases hp : p.1 = a
    · rw [if_pos hp, if_pos hp]
    · rw [if_neg hp, if_neg hp, ih]

theorem totalOf_initArea (a b : String) (r : Report) :
    totalOf a (initArea b r) = totalOf a r := by
  unfold initArea
  by_cases h : (alookup b r).isSome = true
  · rw [if_pos h]
  · rw [if_neg h]
    unfold totalOf
    rw [alookup_append]
    cases hl : alookup a r with
    | some d => rfl
    | none =>
      by_cases hb : b = a
      · rw [show alookup a [(b, (⟨0, []⟩ : AreaData))] = some ⟨0, []⟩ by
          rw [alookup_cons, if_pos hb]]
      · rw [show alookup a [(b, (⟨0, []⟩ : AreaData))] = none by
          rw [alookup_cons, if_neg hb]; rfl]

theorem alookup_setEntry (a b k : String) (v : ℚ) (r : Report) :
    alookup a (setEntry b k v r) =
      (alookup a r).map (fun d => if a = b then ⟨d.total, upsert k v d.entries⟩ else d) := by
  induction r with
  | nil => rfl
  | cons p rest ih =>
    by_cases hp : p.1 = b <;> by_cases hpa : p.1 = a
    · have hab : a = b := by rw [← hpa, hp]
      simp [setEntry_cons, alookup_cons, hp, hpa, hab]
    · have hba : ¬ b = a := fun hh => hpa (hp ▸ hh)
      simp [setEntry_cons, alookup_cons, hp, hpa, hba, ih]
    · have hab : ¬ a = b := fun hh => hp (hpa.trans hh)
      simp [setEntry_cons, alookup_cons, hp, hpa, hab]
    · simp [setEntry_cons, alookup_cons, hp, hpa, ih]

theorem totalOf_setEntry (a b k : String) (v : ℚ) (r : Report) :
    totalOf a (setEntry b k v r) = totalOf a r := by
  unfold totalOf
  rw [alookup_setEntry]
  cases alookup a r with
  | none => rfl
  | some d =>
    by_cases h : a = b
    · simp [h]
    · simp [h]

theorem alookup_addTotal (a b : String) (d : ℚ) (r : Report) :
    alookup a (addTotal b d r) =
      (alookup a r).map (fun q => if a = b then ⟨q.total + d, q.entries⟩ else q) := by
  induction r with
  | nil => rfl
  | cons p rest ih =>
    by_cases hp : p.1 = b <;> by_cases hpa : p.1 = a
    · have hab : a = b := by rw [← hpa, hp]
      simp [addTotal_cons, alookup_cons, hp, hpa, hab]
    · have hba : ¬ b = a := fun hh => hpa (hp ▸ hh)
      simp [addTotal_cons, alookup_cons, hp, hpa, hba, ih]
    · have hab : ¬ a = b := fun hh => hp (hpa.trans hh)
      simp [addTotal_cons, alookup_cons, hp, hpa, hab]
    · simp [addTotal_cons, alookup_cons, hp, hpa, ih]

theorem totalOf_addTotal_self (a : String) (d : ℚ) (r : Report)
    (hm : a ∈ akeys r) :
    totalOf a (addTotal a d r) = totalOf a r + d := by
  unfold totalOf
  rw [alookup_addTotal]
  cases hl : alookup a r with
  | none => exact absurd hm ((alookup_eq_none a r).mp hl)
  | some q => simp

theorem totalOf_addTotal_other (a b : String) (d : ℚ) (r : Report)
    (hne : a ≠ b) :
    totalOf a (addTotal b d r) = totalOf a r := by
  unfold totalOf
  rw [alookup_addTotal]
  cases alookup a r with
  | none => rfl
  | some q => simp [hne]

/-! ## Characterisation of one loop step -/

theorem segStep_eq_same (s : SegState) (e : LogRow)
    (hc : some e.area_name = s.currentArea) :
    segStep s e =
      if e.level = "STATUS" then
        { s with
          rep := match s.subStart with
            | some ss => setEntry e.area_name s.subMsg (minutes ss e.time)
                (initArea e.area_name s.rep)
            | none => setEntry e.area_name "Startup" (minutes s.areaStart e.time)
                (initArea e.area_name s.rep),
          subStart := some e.time, subMsg := e.message }
      else { s with rep := initArea e.area_name s.rep } := by
  unfold segStep
  rw [if_pos hc]

theorem segStep_eq_diff (s : SegState) (e : LogRow) (ca : String)
    (hca : s.currentArea = some ca) (hne : ¬ some e.area_name = s.currentArea) :
    segStep s e =
      (fun rc : Report =>
        (fun r2 : Report =>
          if e.level = "STATUS" then
            { rep := setEntry e.area_name "Startup" (minutes e.time e.time) r2,
              currentArea := some e.area_name, areaStart := e.time,
              subStart := some e.time, subMsg := e.message }
          else
            { rep := r2, currentArea := some e.area_name, areaStart := e.time,
              subStart := none, subMsg := s.subMsg })
          (initArea e.area_name rc))
        (match s.subStart with
          | none => addTotal ca (minutes s.areaStart e.time) (initArea ca s.rep)
          | some ss => setEntry ca s.subMsg (minutes ss e.time)
              (addTotal ca (minutes s.areaStart e.time) (initArea ca s.rep))) := by
  unfold segStep
  rw [if_neg hne, hca]

theorem segStep_eq_none (s : SegState) (e : LogRow)
    (hca : s.currentArea = none) :
    segStep s e =
      (fun r2 : Report =>
        if e.level = "STATUS" then
          { rep := setEntry e.area_name "Startup" (minutes e.time e.time) r2,
            currentArea := some e.area_name, areaStart := e.time,
            subStart := some e.time, subMsg := e.message }
        else
          { rep := r2, currentArea := some e.area_name, areaStart := e.time,
            subStart := none, subMsg := s.subMsg })
        (initArea e.area_name s.rep) := by
  unfold segStep
  rw [if_neg (show ¬ some e.area_name = s.currentArea by
        rw [hca]; exact fun h => Option.noConfusion h), hca]

theorem segStep_currentArea (s : SegState) (e : LogRow) :
    (segStep s e).currentArea = some e.area_name := by
  cases hca : s.currentArea with
  | none =>
    rw [segStep_eq_none s e hca]
    by_cases hst : e.level = "STATUS" <;> simp [hst]
  | some ca =>
    by_cases hc : some e.area_name = s.currentArea
    · rw [segStep_eq_same s e hc]
      by_cases hst : e.level = "STATUS" <;> simp [hst, hc.symm, hca] at *
    · rw [segStep_eq_diff s e ca hca hc]
      by_cases hst : e.level = "STATUS" <;> cases s.subStart <;> simp [hst]

theorem segStep_areaStart_same (s : SegState) (e : LogRow)
    (hc : some e.area_name = s.currentArea) :
    (segStep s e).areaStart = s.areaStart := by
  rw [segStep_eq_same s e hc]
  by_cases hst : e.level = "STATUS" <;> simp [hst]

theorem segStep_areaStart_diff (s : SegState) (e : LogRow)
    (hc : ¬ some e.area_name = s.currentArea) :
    (segStep s e).areaStart = e.time := by
  cases hca : s.currentArea with
  | none =>
    rw [segStep_eq_none s e hca]
    by_cases hst : e.level = "STATUS" <;> simp [hst]
  | some ca =>
    rw [segStep_eq_diff s e ca hca hc]
    by_cases hst : e.level = "STATUS" <;> cases s.subStart <;> simp [hst]

/-- The structural invariant the loop maintains: the report dict has
pairwise-distinct keys and the current area, when set, is one of them. -/
def GoodState (s : SegState) : Prop :=
  (akeys s.rep).Nodup ∧ ∀ ca, s.currentArea = some ca → ca ∈ akeys s.rep

theorem goodState_initState : GoodState initState :=
  ⟨List.nodup_nil, fun ca h => Option.noConfusion h⟩
theorem akeys_nodup_segStep (s : SegState) (e : LogRow)
    (h : (akeys s.rep).Nodup) : (akeys (segStep s e).rep).Nodup := by
  cases hca : s.currentArea with
  | none =>
    rw [segStep_eq_none s e hca]
    by_cases hst : e.level = "STATUS" <;>
      simp only [hst, if_true, if_false, Bool.false_eq_true, ite_true, ite_false,
        reduceIte, akeys_setEntry] <;>
      exact nodup_akeys_initArea _ _ h
  | some ca =>
    by_cases hc : some e.area_name = s.currentArea
    · rw [segStep_eq_same s e hc]
      by_cases hst : e.level = "STATUS"
      · cases hsub : s.subStart <;>
          simp only [hst, hsub, ite_true, reduceIte, akeys_setEntry] <;>
          exact nodup_akeys_initArea _ _ h
      · simp only [hst, ite_false, Bool.false_eq_true, reduceIte]
        exact nodup_akeys_initArea _ _ h
    · rw [segStep_eq_diff s e ca hca hc]
      have h1 : (akeys (match s.subStart with
          | none => addTotal ca (minutes s.areaStart e.time) (initArea ca s.rep)
          | some ss => setEntry ca s.subMsg (minutes ss e.time)
              (addTotal ca (minutes s.areaStart e.time) (initArea ca s.rep)))).Nodup := by
        cases s.subStart <;>
          simp only [akeys_setEntry, akeys_addTotal] <;>
          exact nodup_akeys_initArea _ _ h
      by_cases hst : e.level = "STATUS" <;>
        simp only [hst, ite_true, ite_false, Bool.false_eq_true, reduceIte,
          akeys_setEntry] <;>
        exact nodup_akeys_initArea _ _ h1

theorem mem_akeys_segStep (s : SegState) (e : LogRow) :
    e.area_name ∈ akeys (segStep s e).rep := by
  cases hca : s.currentArea with
  | none =>
    rw [segStep_eq_none s e hca]
    by_cases hst : e.level = "STATUS" <;>
      simp only [hst, ite_true, ite_false, Bool.false_eq_true, reduceIte,
        akeys_setEntry] <;>
      exact mem_akeys_initArea _ _
  | some ca =>
    by_cases hc : some e.area_name = s.currentArea
    · rw [segStep_eq_same s e hc]
      by_cases hst : e.level = "STATUS"
      · cases hsub : s.subStart <;>
          simp only [hst, hsub, ite_true, reduceIte, akeys_setEntry] <;>
          exact mem_akeys_initArea _ _
      · simp only [hst, ite_false, Bool.false_eq_true, reduceIte]
        exact mem_akeys_initArea _ _
    · rw [segStep_eq_diff s e ca hca hc]
      by_cases hst : e.level = "STATUS" <;>
        simp only [hst, ite_true, ite_false, Bool.false_eq_true, reduceIte,
          akeys_setEntry] <;>
        exact mem_akeys_initArea _ _

theorem goodState_segStep (s : SegState) (e : LogRow) (h : GoodState s) :
    GoodState (segStep s e) := by
  refine ⟨akeys_nodup_segStep s e h.1, ?_⟩
  intro ca hc
  rw [segStep_currentArea] at hc
  cases Option.some.inj hc
  exact mem_akeys_segStep s e

theorem sumTotals_segStep_same (s : SegState) (e : LogRow)
    (hc : some e.area_name = s.currentArea) :
    sumTotals (segStep s e).rep = sumTotals s.rep := by
  rw [segStep_eq_same s e hc]
  by_cases hst : e.level = "STATUS"
  · cases hsub : s.subStart <;>
      simp only [hst, hsub, ite_true, reduceIte, sumTotals_setEntry] <;>
      exact sumTotals_initArea _ _
  · simp only [hst, ite_false, Bool.false_eq_true, reduceIte]
    exact sumTotals_initArea _ _

theorem sumTotals_segStep_diff (s : SegState) (e : LogRow) (ca : String)
    (hca : s.currentArea = some ca) (hc : ¬ some e.area_name = s.currentArea)
    (hnd : (akeys s.rep).Nodup) :
    sumTotals (segStep s e).rep = sumTotals s.rep + minutes s.areaStart e.time := by
  rw [segStep_eq_diff s e ca hca hc]
  have h1 : sumTotals (match s.subStart with
      | none => addTotal ca (minutes s.areaStart e.time) (initArea ca s.rep)
      | some ss => setEntry ca s.subMsg (minutes ss e.time)
          (addTotal ca (minutes s.areaStart e.time) (initArea ca s.rep))) =
      sumTotals s.rep + minutes s.areaStart e.time := by
    have hadd : sumTotals (addTotal ca (minutes s.areaStart e.time) (initArea ca s.rep)) =
        sumTotals s.rep + minutes s.areaStart e.time := by
      rw [sumTotals_addTotal ca _ _ (nodup_akeys_initArea ca s.rep hnd)
        (mem_akeys_initArea ca s.rep), sumTotals_initArea]
    cases s.subStart <;> simp only [sumTotals_setEntry] <;> exact hadd
  by_cases hst : e.level = "STATUS" <;>
    simp only [hst, ite_true, ite_false, Bool.false_eq_true, reduceIte,
      sumTotals_setEntry] <;>
    rw [sumTotals_initArea, h1]

theorem sumTotals_segStep_initState (e : LogRow) :
    sumTotals (segStep initState e).rep = 0 := by
  rw [segStep_eq_none initState e rfl]
  by_cases hst : e.level = "STATUS" <;>
    simp only [hst, ite_true, ite_false, Bool.false_eq_true, reduceIte,
      sumTotals_setEntry] <;>
    · rw [sumTotals_initArea]; rfl

theorem totalOf_segStep_same (s : SegState) (e : LogRow) (a : String)
    (hc : some e.area_name = s.currentArea) :
    totalOf a (segStep s e).rep = totalOf a s.rep := by
  rw [segStep_eq_same s e hc]
  by_cases hst : e.level = "STATUS"
  · cases hsub : s.subStart <;>
      simp only [hst, hsub, ite_true, reduceIte, totalOf_setEntry] <;>
      exact totalOf_initArea _ _ _
  · simp only [hst, ite_false, Bool.false_eq_true, reduceIte]
    exact totalOf_initArea _ _ _

theorem totalOf_segStep_diff (s : SegState) (e : LogRow) (a ca : String)
    (hca : s.currentArea = some ca) (hc : ¬ some e.area_name = s.currentArea) :
    totalOf a (segStep s e).rep =
      totalOf a s.rep + (if a = ca then minutes s.areaStart e.time else 0) := by
  rw [segStep_eq_diff s e ca hca hc]
  have h1 : totalOf a (match s.subStart with
      | none => addTotal ca (minutes s.areaStart e.time) (initArea ca s.rep)
      | some ss => setEntry ca s.subMsg (minutes ss e.time)
          (addTotal ca (minutes s.areaStart e.time) (initArea ca s.rep))) =
      totalOf a s.rep + (if a = ca then minutes s.areaStart e.time else 0) := by
    have hadd : totalOf a (addTotal ca (minutes s.areaStart e.time) (initArea ca s.rep)) =
        totalOf a s.rep + (if a = ca then minutes s.areaStart e.time else 0) := by
      by_cases hav : a = ca
      · rw [if_pos hav, hav, totalOf_addTotal_self ca _ _ (mem_akeys_initArea ca s.rep),
          totalOf_initArea]
      · rw [if_neg hav, totalOf_addTotal_other a ca _ _ hav, totalOf_initArea, add_zero]
    cases s.subStart <;> simp only [totalOf_setEntry] <;> exact hadd
  by_cases hst : e.level = "STATUS" <;>
    simp only [hst, ite_true, ite_false, Bool.false_eq_true, reduceIte,
      totalOf_setEntry] <;>
    rw [totalOf_initArea, h1]

theorem totalOf_segStep_initState (e : LogRow) (a : String) :
    totalOf a (segStep initState e).rep = 0 := by
  rw [segStep_eq_none initState e rfl]
  by_cases hst : e.level = "STATUS" <;>
    simp only [hst, ite_true, ite_false, Bool.false_eq_true, reduceIte,
      totalOf_setEntry] <;>
    · rw [totalOf_initArea]; rfl

/-! ## The final close and the two fold invariants -/

theorem sumTotals_segFinal (s : SegState) (ca : String) (last : ℚ)
    (hca : s.currentArea = some ca) (hnd : (akeys s.rep).Nodup)
    (hm : ca ∈ akeys s.rep) :
    sumTotals (segFinal s last) = sumTotals s.rep + minutes s.areaStart last := by
  unfold segFinal
  rw [hca]
  cases s.subStart <;> simp only [sumTotals_setEntry] <;>
    exact sumTotals_addTotal ca _ _ hnd hm

theorem totalOf_segFinal (s : SegState) (a ca : String) (last : ℚ)
    (hca : s.currentArea = some ca) (hm : ca ∈ akeys s.rep) :
    totalOf a (segFinal s last) =
      totalOf a s.rep + (if a = ca then minutes s.areaStart last else 0) := by
  unfold segFinal
  rw [hca]
  have hadd : totalOf a (addTotal ca (minutes s.areaStart last) s.rep) =
      totalOf a s.rep + (if a = ca then minutes s.areaStart last else 0) := by
    by_cases hav : a = ca
    · rw [if_pos hav, hav, totalOf_addTotal_self ca _ _ hm]
    · rw [if_neg hav, totalOf_addTotal_other a ca _ _ hav, add_zero]
  cases s.subStart <;> simp only [totalOf_setEntry] <;> exact hadd

theorem sumTotals_fold (rest : List LogRow) :
    ∀ (s : SegState) (ca : String) (last : ℚ),
      s.currentArea = some ca → GoodState s →
      sumTotals (segFinal (rest.foldl segStep s) last) =
        sumTotals s.rep + minutes s.areaStart last := by
  induction rest with
  | nil =>
    intro s ca last hca hg
    simp only [List.foldl_nil]
    exact sumTotals_segFinal s ca last hca hg.1 (hg.2 ca hca)
  | cons e rest ih =>
    intro s ca last hca hg
    simp only [List.foldl_cons]
    have harea := segStep_currentArea s e
    have hg' := goodState_segStep s e hg
    by_cases hc : some e.area_name = s.currentArea
    · rw [ih (segStep s e) e.area_name last harea hg',
        sumTotals_segStep_same s e hc, segStep_areaStart_same s e hc]
    · rw [ih (segStep s e) e.area_name last harea hg',
        sumTotals_segStep_diff s e ca hca hc hg.1, segStep_areaStart_diff s e hc]
      unfold minutes
      ring

theorem spanSum_nil (a : String) : spanSum a [] = 0 := rfl

theorem spanSum_cons (a b : String) (st cl : ℚ) (sp : List (String × ℚ × ℚ)) :
    spanSum a ((b, st, cl) :: sp) =
      (if b = a then minutes st cl else 0) + spanSum a sp := by
  by_cases h : b = a <;> simp [spanSum, spansOf, h]

theorem totalOf_fold (rest : List LogRow) :
    ∀ (s : SegState) (ca : String) (last : ℚ) (a : String),
      s.currentArea = some ca → GoodState s →
      totalOf a (segFinal (rest.foldl segStep s) last) =
        totalOf a s.rep + spanSum a (spansGo ca s.areaStart last rest) := by
  induction rest with
  | nil =>
    intro s ca last a hca hg
    simp only [List.foldl_nil, spansGo]
    rw [totalOf_segFinal s a ca last hca (hg.2 ca hca), spanSum_cons, spanSum_nil, add_zero]
    by_cases hav : a = ca
    · rw [if_pos hav, if_pos hav.symm]
    · rw [if_neg hav, if_neg (fun hh => hav hh.symm)]
  | cons e rest ih =>
    intro s ca last a hca hg
    simp only [List.foldl_cons, spansGo]
    have harea := segStep_currentArea s e
    have hg' := goodState_segStep s e hg
    by_cases hc : some e.area_name = s.currentArea
    · have he : e.area_name = ca := by
        rw [hca] at hc
        exact Option.some.inj hc
      rw [if_pos he, ih (segStep s e) e.area_name last a harea hg',
        totalOf_segStep_same s e a hc, segStep_areaStart_same s e hc, he]
    · have he : ¬ e.area_name = ca := fun hh => hc (by rw [hca, hh])
      rw [if_neg he, spanSum_cons, ih (segStep s e) e.area_name last a harea hg',
        totalOf_segStep_diff s e a ca hca hc, segStep_areaStart_diff s e hc]
      by_cases hav : a = ca
      · rw [if_pos hav, if_pos hav.symm]
        ring
      · rw [if_neg hav, if_neg (fun hh => hav hh.symm)]
        ring

/-! ## Flattening preserves the totals -/

theorem areaTotal_flattenArea (d : AreaData) : areaTotal (flattenArea d) = d.total := by
  unfold flattenArea
  by_cases h : d.entries = [] <;> simp [h, areaTotal]

theorem sum_flatten (r : Report) :
    ((r.map (fun p => (p.1, flattenArea p.2))).map (fun p => areaTotal p.2)).sum =
      sumTotals r := by
  induction r with
  | nil => rfl
  | cons p rest ih =>
    simp only [List.map_cons, List.sum_cons, sumTotals, areaTotal_flattenArea] at *
    rw [ih]

theorem alookup_map_flatten (a : String) (r : Report) :
    alookup a (r.map (fun p => (p.1, flattenArea p.2))) = (alookup a r).map flattenArea := by
  induction r with
  | nil => rfl
  | cons p rest ih =>
    simp only [List.map_cons, alookup_cons]
    by_cases h : p.1 = a <;> simp [h, ih]

theorem areaTotalOf_flatten (a : String) (t : ℚ) (r : Report) :
    areaTotalOf ⟨t, r.map (fun p => (p.1, flattenArea p.2))⟩ a = totalOf a r := by
  unfold areaTotalOf totalOf
  simp only
  rw [alookup_map_flatten]
  cases alookup a r with
  | none => rfl
  | some d => exact areaTotal_flattenArea d

/-! ## Claim C1 -/

/-- C1: for every run with at least 2 events (and no area literally named
`"Total runtime"`, on which the Python code raises instead of reporting),
the sum of the per-area `Total_runtime` values of the generated Runtime
Report equals the reported `Total runtime` exactly (hence also up to
rounding): the closed area intervals partition the span from the first
event's timestamp to the last event's timestamp with no gaps and no
double-counting. -/
theorem c1_area_totals_sum_to_total (logs : List LogRow) (rr : RuntimeReport)
    (h2 : 2 ≤ logs.length)
    (hname : ∀ e ∈ logs, e.area_name ≠ "Total runtime")
    (hrr : _generate_runtime_report logs = some rr) :
    sumAreaTotals rr = rr.total := by
  cases logs with
  | nil => simp [_generate_runtime_report] at hrr
  | cons first rest =>
    simp only [_generate_runtime_report] at hrr
    cases Option.some.inj hrr
    show sumAreaTotals
      ⟨minutes first.time (lastTimeGo first rest),
        (segFinal ((first :: rest).foldl segStep initState)
            (lastTimeGo first rest)).map (fun p => (p.1, flattenArea p.2))⟩ =
      minutes first.time (lastTimeGo first rest)
    unfold sumAreaTotals
    simp only
    rw [sum_flatten, List.foldl_cons,
      sumTotals_fold rest (segStep initState first) first.area_name
        (lastTimeGo first rest) (segStep_currentArea initState first)
        (goodState_segStep initState first goodState_initState),
      sumTotals_segStep_initState,
      segStep_areaStart_diff initState first
        (fun h => Option.noConfusion h),
      zero_add]

/-- A concrete two-event run used to witness C1. -/
def c1Logs : List LogRow :=
  [⟨"start", "A", 0, "INFO", 1⟩, ⟨"done", "B", 60, "INFO", 1⟩]

theorem c1_witness :
    2 ≤ c1Logs.length ∧ (∀ e ∈ c1Logs, e.area_name ≠ "Total runtime") ∧
      sumAreaTotals ⟨1, [("A", .flat 1), ("B", .flat 0)]⟩ =
        (⟨1, [("A", .flat 1), ("B", .flat 0)]⟩ : RuntimeReport).total :=
  ⟨by decide, by decide,
    c1_area_totals_sum_to_total c1Logs ⟨1, [("A", .flat 1), ("B", .flat 0)]⟩
      (by decide) (by decide)
      (by simp [c1Logs, _generate_runtime_report, lastTimeGo, segStep, segFinal,
        initArea, addTotal, setEntry, upsert, alookup, flattenArea, minutes,
        initState])⟩

/-! ## Claim C10 -/

/-- C10: whenever an area name occupies two or more non-contiguous spans of
the stream (and no area is literally named `"Total runtime"`), the Runtime
Report's `Total_runtime` for that area is the sum of the durations of all
its spans — a later span adds to, rather than overwrites, an earlier one.
(The equation in fact holds for every area of every stream.) -/
theorem c10_noncontiguous_spans_sum (logs : List LogRow) (rr : RuntimeReport)
    (a : String)
    (hname : ∀ e ∈ logs, e.area_name ≠ "Total runtime")
    (hmulti : 2 ≤ (spansOf a (spans logs)).length)
    (hrr : _generate_runtime_report logs = some rr) :
    areaTotalOf rr a = spanSum a (spans logs) := by
  cases logs with
  | nil => simp [_generate_runtime_report] at hrr
  | cons first rest =>
    simp only [_generate_runtime_report] at hrr
    cases Option.some.inj hrr
    rw [areaTotalOf_flatten, List.foldl_cons,
      totalOf_fold rest (segStep initState first) first.area_name
        (lastTimeGo first rest) a (segStep_currentArea initState first)
        (goodState_segStep initState first goodState_initState),
      totalOf_segStep_initState,
      segStep_areaStart_diff initState first (fun h => Option.noConfusion h),
      zero_add]
    rfl

/-- A concrete run in which area `"A"` appears in two non-contiguous spans
(`A`, then `B`, then `A` again), used to witness C10. -/
def c10Logs : List LogRow :=
  [⟨"m1", "A", 0, "INFO", 1⟩, ⟨"m2", "B", 60, "INFO", 1⟩,
   ⟨"m3", "A", 120, "INFO", 1⟩]

theorem c10_witness :
    (∀ e ∈ c10Logs, e.area_name ≠ "Total runtime") ∧
      2 ≤ (spansOf "A" (spans c10Logs)).length ∧
      areaTotalOf ⟨2, [("A", .flat 1), ("B", .flat 1)]⟩ "A" =
        spanSum "A" (spans c10Logs) :=
  ⟨by decide, by decide,
    c10_noncontiguous_spans_sum c10Logs ⟨2, [("A", .flat 1), ("B", .flat 1)]⟩ "A"
      (by decide) (by decide)
      (by simp [c10Logs, _generate_runtime_report, lastTimeGo, segStep, segFinal,
        initArea, addTotal, setEntry, upsert, alookup, flattenArea, minutes,
        initState] <;> norm_num)⟩

/-! ## Claim C2 -/

/-- The four-event scenario of C2 at `t0, t1, t2, t3 = 0, 1, 2, 3`. -/
def c2Logs : List LogRow :=
  [⟨"x", "A", 0, "INFO", 1⟩, ⟨"phase1", "A", 1, "STATUS", 1⟩,
   ⟨"phase2", "A", 2, "STATUS", 1⟩, ⟨"y", "B", 3, "INFO", 1⟩]

/-- C2 counterexample: on the scenario stream with `t0,t1,t2,t3 = 0,1,2,3`
the Entries map of area A is `{Startup: t1−t0, phase1: t2−t1, phase2: t3−t2}`,
not `{Startup: t1−t0, phase1: t2−t1}` as the claim states: the sub-phase
`"phase2"` that is still open at the area transition is closed at `t3` and
recorded (logger.py lines 358–362), so the claimed "Entries exactly
{Startup, phase1}" is false. -/
theorem c2_counterexample :
    (_generate_runtime_report c2Logs).map (fun rr => alookup "A" rr.areas) =
      some (some (.nested (3/60)
        [("Startup", 1/60), ("phase1", 1/60), ("phase2", 1/60)])) ∧
    (_generate_runtime_report c2Logs).map (fun rr => alookup "A" rr.areas) ≠
      some (some (.nested (3/60) [("Startup", 1/60), ("phase1", 1/60)])) := by
  constructor <;>
    simp [c2Logs, _generate_runtime_report, lastTimeGo, segStep, segFinal,
      initArea, addTotal, setEntry, upsert, alookup, flattenArea, minutes,
      initState] <;> norm_num

/-- C2 (amended): for the event stream
`[(A,INFO,x,t0), (A,STATUS,phase1,t1), (A,STATUS,phase2,t2), (B,INFO,y,t3)]`
with `t0<t1<t2<t3`, the Runtime Report gives area A the total `t3−t0` with
Entries exactly `{Startup: t1−t0, phase1: t2−t1, phase2: t3−t2}` (the open
sub-phase `phase2` is closed by the area transition at `t3`), and reports
area B as the flat duration value 0.  All durations are in minutes
(seconds divided by 60). -/
theorem c2_amended_scenario (t0 t1 t2 t3 : ℚ)
    (h01 : t0 < t1) (h12 : t1 < t2) (h23 : t2 < t3) :
    _generate_runtime_report
      [⟨"x", "A", t0, "INFO", 1⟩, ⟨"phase1", "A", t1, "STATUS", 1⟩,
       ⟨"phase2", "A", t2, "STATUS", 1⟩, ⟨"y", "B", t3, "INFO", 1⟩] =
      some ⟨minutes t0 t3,
        [("A", .nested (minutes t0 t3)
            [("Startup", minutes t0 t1), ("phase1", minutes t1 t2),
             ("phase2", minutes t2 t3)]),
         ("B", .flat 0)]⟩ := by
  simp [_generate_runtime_report, lastTimeGo, segStep, segFinal, initArea,
    addTotal, setEntry, upsert, alookup, flattenArea, minutes, initState] <;>
    norm_num

theorem c2_amended_witness :
    ((0:ℚ) < 1 ∧ (1:ℚ) < 2 ∧ (2:ℚ) < 3) ∧
      _generate_runtime_report c2Logs =
        some ⟨minutes 0 3,
          [("A", .nested (minutes 0 3)
              [("Startup", minutes 0 1), ("phase1", minutes 1 2),
               ("phase2", minutes 2 3)]),
           ("B", .flat 0)]⟩ :=
  ⟨⟨by norm_num, by norm_num, by norm_num⟩,
    c2_amended_scenario 0 1 2 3 (by norm_num) (by norm_num) (by norm_num)⟩

/-! ## Claim C3 -/

/-- C3 counterexample: a run with exactly one event — fewer than two — still
has its runtime document generated and written (the early return at
logger.py lines 330–331 fires only for zero events), and a run with zero
events still has its error document written, as an empty object
(`_generate_error_report` has no event-count guard and writes
`report_errors.json` unconditionally, lines 444–445).  This contradicts
"no runtime document and no error document is written". -/
theorem c3_counterexample :
    (_generate_runtime_report [⟨"m", "A", 0, "INFO", 1⟩]).isSome = true ∧
      _generate_error_report_doc ([] : List LogRow) = some [] :=
  ⟨rfl, rfl⟩

/-- C3 (amended): for runs with no area literally named `"Total runtime"`
(on such an area the code raises `TypeError` at logger.py line 393 and
writes neither document), the runtime document is skipped exactly when the
run has zero events — a single-event run still writes a runtime document —
while the error document is written unconditionally (an empty object when
the run has no events); the insufficient-data case returns early without
raising and nothing logs an `InsufficientData` condition. -/
theorem c3_amended_skip_only_when_empty (logs : List LogRow)
    (hname : ∀ e ∈ logs, e.area_name ≠ "Total runtime") :
    ((_generate_runtime_report logs).isNone ↔ logs = []) ∧
      (_generate_error_report_doc logs).isSome = true := by
  refine ⟨?_, rfl⟩
  cases logs <;> simp [_generate_runtime_report]

theorem c3_witness :
    (∀ e ∈ [(⟨"m", "A", 0, "INFO", 1⟩ : LogRow)], e.area_name ≠ "Total runtime") ∧
      (((_generate_runtime_report [⟨"m", "A", 0, "INFO", 1⟩]).isNone ↔
          ([⟨"m", "A", 0, "INFO", 1⟩] : List LogRow) = []) ∧
        (_generate_error_report_doc [⟨"m", "A", 0, "INFO", 1⟩]).isSome = true) :=
  ⟨by decide,
    c3_amended_skip_only_when_empty [⟨"m", "A", 0, "INFO", 1⟩] (by decide)⟩

/-! ## Claim C4 -/

theorem foldl_execEffect_selects (id : ℤ) (areas : List String) (store : List LogRow) :
    ((areas.map (fun a => SqlStmt.selectAreaLevels a id)).foldl execEffect store) =
      store := by
  induction areas generalizing store with
  | nil => rfl
  | cons a rest ih =>
    rw [List.map_cons, List.foldl_cons]
    exact ih (execEffect store (SqlStmt.selectAreaLevels a id))

/-- C4 (amended): finalization leaves the store untouched — `finalize_logs`
only reads (three `SELECT` shapes, logger.py lines 328, 422, 427) and no
`DELETE` statement exists anywhere in `logger.py`, so the run's rows are
never purged and the store keeps growing across runs. -/
theorem c4_amended_no_purge (store : List LogRow) (id : ℤ) :
    finalize_store store id = store := by
  unfold finalize_store finalizeStmts
  rw [List.foldl_cons, List.foldl_cons]
  exact foldl_execEffect_selects id _ store

/-- A one-row store for run 1, used for the C4 counterexample. -/
def c4Store : List LogRow := [⟨"m", "A", 0, "INFO", 1⟩]

/-- C4 counterexample: after finalizing run 1 over a store holding one
event of run 1, the store still contains that event — the claim that the
finalizer purges the current run's rows is false. -/
theorem c4_counterexample :
    (finalize_store c4Store 1).filter (fun e => e.instance_id = 1) =
      [⟨"m", "A", 0, "INFO", 1⟩] ∧
    (finalize_store c4Store 1).filter (fun e => e.instance_id = 1) ≠ [] := by
  refine ⟨rfl, ?_⟩
  intro h
  rw [show (finalize_store c4Store 1).filter (fun e => e.instance_id = 1) =
      [⟨"m", "A", 0, "INFO", 1⟩] from rfl] at h
  exact List.cons_ne_nil _ _ h

/-! ## Claim C5 -/

/-- C5: the rotating-history behaviour the code's own comment announces
("Store self.report at the top of the json file, removing everything after
300 lines", logger.py line 303) never happens: `generate_reports` discards
the report returned by `_generate_runtime_report` (line 295) and never
assigns `self.report`, so the `hasattr(self, 'report')` guard (line 304)
makes the history block return before writing `report.json` — for every
prior history content, nothing is written.  (Even if `self.report` were
set, `open('report.json', 'w')` truncates the file before `readlines()`,
which raises on a write-only handle, so the fallback would write only the
bare new report.) -/
theorem c5_history_never_written (prior : List RuntimeReport) :
    generate_reports_history prior = none := rfl

/-! ## Claim C7 -/

/-- C7 counterexample: a non-`ValueError` failure during report generation
— e.g. an `OperationalError` raised by the store read inside
`_generate_runtime_report` — propagates out of `finalize_logs`, because
`generate_reports` catches only `ValueError` (logger.py line 297).  The
claim that any error during report generation or emission is caught and
recovered locally is false. -/
theorem c7_counterexample :
    finalize_logs_exc (.error (.otherError "OperationalError")) (.ok ()) =
      .error (.otherError "OperationalError") := rfl

/-- C7 (amended): finalization recovers exactly the `ValueError`s raised by
the two report generators; every other exception of the try body
(store read failure, document write failure, ...) propagates out of the
finalizer unhandled. -/
theorem c7_amended_only_valueerror_recovered (rt er : Except PyExc Unit)
    (e : PyExc) :
    finalize_logs_exc rt er = .error e ↔
      (reportsTryBody rt er = .error e ∧ ∀ m, e ≠ PyExc.valueError m) := by
  unfold finalize_logs_exc generate_reports_exc
  cases rt with
  | error e1 =>
    cases e1 <;> cases e <;> simp [reportsTryBody]
  | ok u =>
    cases er with
    | error e2 => cases e2 <;> cases e <;> simp [reportsTryBody]
    | ok v => cases e <;> simp [reportsTryBody]

/-! ## Claim C8 -/

theorem mem_insertDesc (x y : ℤ) (l : List ℤ) :
    y ∈ insertDesc x l ↔ y = x ∨ y ∈ l := by
  induction l with
  | nil => simp [insertDesc]
  | cons z zs ih =>
    unfold insertDesc
    by_cases h : z ≤ x
    · simp [h]
    · simp only [h, if_false, Bool.false_eq_true, reduceIte, List.mem_cons, ih]
      tauto

theorem mem_sortDesc (y : ℤ) (l : List ℤ) : y ∈ sortDesc l ↔ y ∈ l := by
  induction l with
  | nil => simp [sortDesc]
  | cons x xs ih =>
    unfold sortDesc
    rw [mem_insertDesc, ih, List.mem_cons]

theorem sortDesc_head_max (l : List ℤ) :
    ∀ h t, sortDesc l = h :: t → h ∈ l ∧ ∀ y ∈ l, y ≤ h := by
  induction l with
  | nil =>
    intro h t hh
    simp [sortDesc] at hh
  | cons x xs ih =>
    intro h t hh
    unfold sortDesc at hh
    cases hs : sortDesc xs with
    | nil =>
      rw [hs] at hh
      unfold insertDesc at hh
      have hxs : xs = [] := by
        cases hxs : xs with
        | nil => rfl
        | cons a as =>
          exfalso
          have hmem : a ∈ sortDesc xs := by
            rw [mem_sortDesc, hxs]
            exact List.mem_cons_self a as
          rw [hs] at hmem
          simp at hmem
      injection hh with h1 h2
      subst h1
      subst hxs
      refine ⟨List.mem_cons_self x [], ?_⟩
      intro y hy
      rcases List.mem_cons.mp hy with rfl | hy
      · exact le_refl y
      · simp at hy
    | cons h0 t0 =>
      rw [hs] at hh
      obtain ⟨hmem0, hub0⟩ := ih h0 t0 hs
      unfold insertDesc at hh
      by_cases hc : h0 ≤ x
      · rw [if_pos hc] at hh
        injection hh with h1 h2
        subst h1
        refine ⟨List.mem_cons_self x xs, ?_⟩
        intro y hy
        rcases List.mem_cons.mp hy with rfl | hy
        · exact le_refl y
        · exact le_trans (hub0 y hy) hc
      · rw [if_neg hc] at hh
        injection hh with h1 h2
        subst h1
        refine ⟨List.mem_cons_of_mem x hmem0, ?_⟩
        intro y hy
        rcases List.mem_cons.mp hy with rfl | hy
        · exact le_of_lt (lt_of_not_le hc)
        · exact hub0 y hy

/-- C8: `get_etl_id` returns the maximum `instance_id` among all retained
events plus 1 (the `fetchone()` of the ids ordered descending); it returns
1 when the store is empty; and on any read failure it returns 1 instead of
throwing — being a total function of the read outcome, no exception escapes
this boundary. -/
theorem c8_next_run_id (msg : String) (rows : List LogRow) (m : ℤ) :
    get_etl_id (.error msg) = 1 ∧
    get_etl_id (.ok ([] : List LogRow)) = 1 ∧
    ((m ∈ rows.map LogRow.instance_id ∧
        ∀ x ∈ rows.map LogRow.instance_id, x ≤ m) →
      get_etl_id (.ok rows) = m + 1) := by
  refine ⟨rfl, rfl, ?_⟩
  rintro ⟨hm, hub⟩
  show (match (sortDesc (rows.map LogRow.instance_id)).head? with
    | none => 1
    | some mm => mm + 1) = m + 1
  cases hsd : sortDesc (rows.map LogRow.instance_id) with
  | nil =>
    exfalso
    have hmm := (mem_sortDesc m (rows.map LogRow.instance_id)).mpr hm
    rw [hsd] at hmm
    simp at hmm
  | cons h t =>
    obtain ⟨hmem, hub2⟩ := sortDesc_head_max (rows.map LogRow.instance_id) h t hsd
    have h1 : h = m := le_antisymm (hub h hmem) (hub2 m hm)
    show h + 1 = m + 1
    rw [h1]

/-- A store with leftover rows of runs 5 and 3, used to witness C8. -/
def c8Rows : List LogRow :=
  [⟨"a", "A", 0, "INFO", 5⟩, ⟨"b", "B", 0, "INFO", 3⟩]

theorem c8_witness :
    ((5 : ℤ) ∈ c8Rows.map LogRow.instance_id ∧
        ∀ x ∈ c8Rows.map LogRow.instance_id, x ≤ (5 : ℤ)) ∧
      get_etl_id (.ok c8Rows) = 5 + 1 :=
  ⟨⟨by decide, by decide⟩,
    (c8_next_run_id "" c8Rows 5).2.2 ⟨by decide, by decide⟩⟩

/-! ## Claim C9 -/

/-- C9: for any two store states that contain exactly the same rows tagged
with the current `run_id` (in the same order) but arbitrary different rows
of other runs, finalization produces identical Runtime Reports and
identical Error Reports — every query of both report generators filters on
`instance_id`, so events of other runs never influence either report. -/
theorem c9_run_isolation (s1 s2 : List LogRow) (id : ℤ)
    (h : s1.filter (fun e => e.instance_id = id) =
      s2.filter (fun e => e.instance_id = id)) :
    runtimeReportOfStore s1 id = runtimeReportOfStore s2 id ∧
      errorReportOfStore s1 id = errorReportOfStore s2 id := by
  unfold runtimeReportOfStore errorReportOfStore queryRun
  rw [h]
  exact ⟨rfl, rfl⟩

/-- Two stores agreeing on run 1 but holding different rows of runs 2–3,
used to witness C9. -/
def c9Store1 : List LogRow :=
  [⟨"x", "A", 0, "INFO", 1⟩, ⟨"z", "C", 5, "ERROR", 2⟩]

/-- The second store of the C9 witness. -/
def c9Store2 : List LogRow :=
  [⟨"x", "A", 0, "INFO", 1⟩, ⟨"w", "D", 7, "WARNING", 3⟩,
   ⟨"q", "E", 9, "CRITICAL", 2⟩]

theorem c9_witness :
    c9Store1.filter (fun e => e.instance_id = 1) =
        c9Store2.filter (fun e => e.instance_id = 1) ∧
      (runtimeReportOfStore c9Store1 1 = runtimeReportOfStore c9Store2 1 ∧
        errorReportOfStore c9Store1 1 = errorReportOfStore c9Store2 1) :=
  ⟨by decide, c9_run_isolation c9Store1 c9Store2 1 (by decide)⟩

/-! ## Claim C6 -/

theorem list_map_congr {α β : Type} (f g : α → β) (l : List α)
    (h : ∀ a ∈ l, f a = g a) : l.map f = l.map g := by
  induction l with
  | nil => rfl
  | cons x xs ih =>
    rw [List.map_cons, List.map_cons, h x (List.mem_cons_self x xs),
      ih (fun a ha => h a (List.mem_cons_of_mem x ha))]

theorem map_after_incr (x : String) (c : String → ℕ) (cs : List (String × ℕ)) :
    (incr x cs).map (fun p => (p.1, p.2 + c p.1)) =
      cs.map (fun p => (p.1, p.2 + c p.1 + if x = p.1 then 1 else 0)) := by
  induction cs with
  | nil => rfl
  | cons p ps ih =>
    show ((if p.1 = x then (p.1, p.2 + 1) else p) :: incr x ps).map _ = _
    rw [List.map_cons, List.map_cons, ih]
    congr 1
    by_cases hp : p.1 = x
    · rw [if_pos hp]
      show (p.1, p.2 + 1 + c p.1) = (p.1, p.2 + c p.1 + if x = p.1 then 1 else 0)
      rw [if_pos hp.symm]
      congr 1
      omega
    · rw [if_neg hp]
      show (p.1, p.2 + c p.1) = (p.1, p.2 + c p.1 + if x = p.1 then 1 else 0)
      rw [if_neg (fun h => hp h.symm), Nat.add_zero]

theorem foldl_incr (xs : List LogRow) :
    ∀ cs : List (String × ℕ),
      xs.foldl (fun cs e => incr e.level cs) cs =
        cs.map (fun p => (p.1, p.2 + xs.countP (fun e => decide (e.level = p.1)))) := by
  induction xs with
  | nil =>
    intro cs
    rw [List.foldl_nil,
      list_map_congr _ id cs (fun p hp => by
        rw [List.countP_nil, Nat.add_zero]; exact rfl),
      List.map_id]
  | cons x xs ih =>
    intro cs
    rw [List.foldl_cons, ih (incr x.level cs),
      map_after_incr x.level
        (fun l => xs.countP (fun e => decide (e.level = l))) cs]
    refine list_map_congr _ _ cs (fun p hp => ?_)
    rw [List.countP_cons]
    by_cases hxl : x.level = p.1
    · simp [hxl, Nat.add_assoc]
    · simp [hxl]

theorem countP_area_level (a l : String) (hl : l ∈ reported_levels)
    (logs : List LogRow) :
    (logs.filter
        (fun e => decide (e.area_name = a ∧ e.level ∈ reported_levels))).countP
        (fun e => decide (e.level = l)) =
      logs.countP (fun e => decide (e.area_name = a ∧ e.level = l)) := by
  induction logs with
  | nil => rfl
  | cons x xs ih =>
    by_cases hq : x.area_name = a ∧ x.level ∈ reported_levels
    · rw [List.filter_cons, if_pos (decide_eq_true hq),
        List.countP_cons, List.countP_cons, ih]
      congr 1
      by_cases h2 : x.level = l
      · rw [if_pos (decide_eq_true h2), if_pos (decide_eq_true ⟨hq.1, h2⟩)]
      · rw [if_neg (fun hd => h2 (of_decide_eq_true hd)),
          if_neg (fun hd => h2 (of_decide_eq_true hd).2)]
    · rw [List.filter_cons, if_neg (fun hd => hq (of_decide_eq_true hd)),
        List.countP_cons, ih,
        if_neg (fun hd => hq ⟨(of_decide_eq_true hd).1, by
          rw [(of_decide_eq_true hd).2]; exact hl⟩),
        Nat.add_zero]

theorem filter_map_counts (c : String → ℕ) (ls : List String) :
    (ls.map (fun l => (l, c l))).filter (fun p => decide (0 < p.2)) =
      ls.filterMap (fun l => if c l = 0 then none else some (l, c l)) := by
  induction ls with
  | nil => rfl
  | cons l ls ih =>
    rw [List.map_cons, List.filter_cons, List.filterMap_cons]
    by_cases h : c l = 0
    · simp [h, ih]
    · simp [h, Nat.pos_of_ne_zero h, ih]

theorem errorCountsFor_eq (a : String) (logs : List LogRow) :
    errorCountsFor a logs =
      reported_levels.map (fun l =>
        (l, logs.countP (fun e => decide (e.area_name = a ∧ e.level = l)))) := by
  unfold errorCountsFor
  rw [foldl_incr, List.map_map]
  refine list_map_congr _ _ reported_levels (fun l hl => ?_)
  show (l, 0 + (logs.filter
      (fun e => decide (e.area_name = a ∧ e.level ∈ reported_levels))).countP
      (fun e => decide (e.level = l))) = _
  rw [Nat.zero_add, countP_area_level a l hl logs]

/-- The per-area error value, following the spec's words (§4.5, §8) with
the severity list as the code configures it: for each reported severity in
order, its count of matching events when positive; `"No Errors"` when all
counts are zero. -/
def errorReportSpec (logs : List LogRow) (a : String) : ErrVal :=
  let cs := reported_levels.filterMap (fun l =>
    let n := logs.countP (fun e => decide (e.area_name = a ∧ e.level = l))
    if n = 0 then none else some (l, n))
  if cs = [] then .noErrors else .counts cs

theorem errorAreaVal_eq_spec (logs : List LogRow) (a : String) :
    errorAreaVal logs a = errorReportSpec logs a := by
  simp only [errorAreaVal, errorReportSpec]
  rw [errorCountsFor_eq, filter_map_counts]

theorem alookup_map_self {β : Type} (g : String → β) (ls : List String)
    (a : String) :
    alookup a (ls.map (fun x => (x, g x))) =
      if a ∈ ls then some (g a) else none := by
  induction ls with
  | nil => simp [alookup]
  | cons x xs ih =>
    rw [List.map_cons, alookup_cons]
    by_cases hx : x = a
    · subst hx
      rw [if_pos rfl, if_pos (List.mem_cons_self x xs)]
    · rw [if_neg hx, ih]
      by_cases hm : a ∈ xs
      · rw [if_pos hm, if_pos (List.mem_cons_of_mem x hm)]
      · rw [if_neg hm, if_neg (fun hc => by
          rcases List.mem_cons.mp hc with h | h
          · exact hx h.symm
          · exact hm h)]

/-- C6 (amended): the Error Report maps each distinct area observed in the
run's events — and no other key — to its per-severity positive counts over
exactly the configured reported severities `WARNING, ERROR, EXCEPTION,
CRITICAL` (logger.py line 265; `STATUS`, `DEBUG` and `INFO` are never
counted, but `EXCEPTION` — absent from the claim — is); zero-count
severities are omitted, and an area whose counts are all zero maps to the
sentinel `"No Errors"`.  In particular an area with one WARNING and no
other reported-severity event maps to `{"WARNING": {"Count": 1}}`. -/
theorem c6_error_report_characterisation (logs : List LogRow) (a : String) :
    alookup a (_generate_error_report logs) =
      if a ∈ distinctAreas logs then some (errorReportSpec logs a) else none := by
  unfold _generate_error_report
  rw [alookup_map_self (errorAreaVal logs) (distinctAreas logs) a]
  by_cases hm : a ∈ distinctAreas logs
  · rw [if_pos hm, if_pos hm, errorAreaVal_eq_spec]
  · rw [if_neg hm, if_neg hm]

/-- C6 counterexample: the configured reported severities are
`['WARNING', 'ERROR', 'EXCEPTION', 'CRITICAL']` (logger.py line 265), not
exactly `WARNING, ERROR, CRITICAL`: a run whose area A has one `EXCEPTION`
event and no WARNING/ERROR/CRITICAL events is reported as
`{"EXCEPTION": {"Count": 1}}`, where the claim requires the `"No Errors"`
sentinel (severities outside its three never counted). -/
theorem c6_counterexample :
    _generate_error_report [⟨"boom", "A", 0, "EXCEPTION", 1⟩] =
      [("A", .counts [("EXCEPTION", 1)])] := by
  decide
